import Mathlib

/-!
Shallow embedding of the column storage core of the repository
(`src/docarray/array/stacked/column_storage.py`): the `ColumnStorage`
container with its four column groups, whole-storage advanced indexing
(`__getitem__`), length (`__len__`), the merged `ChainMap` key space
(`columns`), and the per-row `ColumnStorageView` with its read, write,
delete and key-iteration operations.

Modelling conventions:
- A column is a `List α` of per-row cells; the cell type is abstract,
  since the core never interprets cell contents.  All four groups are
  given the same cell type: the claims under verification only concern
  alignment, ordering and read/write behaviour, never the cells
  themselves.
- Python errors become an explicit `PyErr` inductive and fallible
  operations return `Except PyErr _`.
- Mutation of a storage through a view is modelled by explicit state
  passing: a view holds its bound index, and the bound storage is the
  threaded state, so every view over the same storage reads the current
  state (this is the aliasing of the source, made explicit).
- The columns of a group are an association list `List (String × List α)`
  in insertion order, mirroring a Python `dict` (keys unique, ordered).
- The per-column indexing contract (single index, slice, integer-list
  gather, boolean mask) is implemented by `ListAdvanceIndex`, the tensor
  types and the stacked nested collections, none of which are under
  `src/`; `colIndex` below is therefore modelled from the spec (§4.3 and
  §6), with slice resolution following the host language's standard
  slice-index algorithm.
-/

/-- Python-level error conditions surfaced by the column storage core:
IndexError, KeyError, RuntimeError and ValueError conditions, each with
its payload. -/
inductive PyErr where
  | indexError (msg : String)
  | keyError (key : String)
  | runtimeError (msg : String)
  | valueError (msg : String)
  deriving Repr, DecidableEq

/-- Index expressions accepted by `ColumnStorage.__getitem__`
(`IndexIterType`): a slice (with optional start, stop, step), an ordered
sequence of integers, an ordered sequence of booleans, or a tuple of
either (normalized to the list form before dispatch). -/
inductive IndexExpr where
  | slice (start stop step : Option Int)
  | ints (l : List Nat)
  | bools (m : List Bool)
  | intsTuple (l : List Nat)
  | boolsTuple (m : List Bool)
  deriving Repr, DecidableEq

/-- From the source: `if isinstance(item, tuple): item = list(item)` —
a tuple index is normalized to the corresponding list before being
applied to the columns. -/
def normalizeIndex : IndexExpr → IndexExpr
  | .intsTuple l => .ints l
  | .boolsTuple m => .bools m
  | e => e

/-- Modelled from the spec: the host language's slice resolution for a
sequence of length `n` (slice start, stop and step, each optional;
negative values count from the end; bounds are clamped; a zero step is
rejected).  Returns the list of selected positions, all within
`[0, n)`, or `none` for a zero step. -/
def sliceIndices (start? stop? step? : Option Int) (n : Nat) : Option (List Nat) :=
  let st : Int := step?.getD 1
  if st = 0 then
    none
  else if 0 < st then
    let lo : Int :=
      match start? with
      | none => 0
      | some a => if a < 0 then max (a + (n : Int)) 0 else min a (n : Int)
    let hi : Int :=
      match stop? with
      | none => (n : Int)
      | some b => if b < 0 then max (b + (n : Int)) 0 else min b (n : Int)
    let cnt : Nat := if hi ≤ lo then 0 else ((hi - lo - 1) / st + 1).toNat
    some ((List.range cnt).map fun j => (lo + (j : Int) * st).toNat)
  else
    let lo : Int :=
      match start? with
      | none => (n : Int) - 1
      | some a => if a < 0 then max (a + (n : Int)) (-1) else min a ((n : Int) - 1)
    let hi : Int :=
      match stop? with
      | none => -1
      | some b => if b < 0 then max (b + (n : Int)) (-1) else min b ((n : Int) - 1)
    let cnt : Nat := if lo ≤ hi then 0 else ((lo - hi - 1) / (-st) + 1).toNat
    some ((List.range cnt).map fun j => (lo + (j : Int) * st).toNat)

/-- Modelled from the spec: integer-list gather on a column — output
order follows the index list (permutation and duplication allowed); the
first out-of-range position raises an IndexError-class condition. -/
def gather {α : Type} (col : List α) : List Nat → Except PyErr (List α)
  | [] => .ok []
  | i :: is =>
    match col.get? i with
    | some x =>
      match gather col is with
      | .ok rest => .ok (x :: rest)
      | .error e => .error e
    | none => .error (.indexError "list index out of range")

/-- Modelled from the spec: boolean-mask selection — keeps the elements
at the positions where the mask is true, preserving the original
relative order. -/
def maskSelect {α : Type} : List Bool → List α → List α
  | true :: m, x :: l => x :: maskSelect m l
  | false :: m, _ :: l => maskSelect m l
  | _, _ => []

/-- Modelled from the spec: the shared per-column advanced-indexing
contract (§4.3): a slice selects by resolved slice positions, an
integer list gathers in list order, and a boolean mask must have
exactly the column's length and selects the true positions. -/
def colIndex {α : Type} (e : IndexExpr) (col : List α) : Except PyErr (List α) :=
  match e with
  | .slice a b c =>
    match sliceIndices a b c col.length with
    | none => .error (.valueError "slice step cannot be zero")
    | some idxs => .ok (idxs.filterMap fun i => col.get? i)
  | .ints l => gather col l
  | .bools m =>
    if m.length = col.length then .ok (maskSelect m col)
    else .error (.indexError "boolean mask length does not match column length")
  | .intsTuple l => gather col l
  | .boolsTuple m =>
    if m.length = col.length then .ok (maskSelect m col)
    else .error (.indexError "boolean mask length does not match column length")

/-- The column storage: the four column groups (each a `dict` of named
columns, embedded as an ordered association list), the declared document
type and the declared tensor kind (both opaque tags here). -/
structure ColumnStorage (α : Type) where
  tensor_columns : List (String × List α)
  doc_columns : List (String × List α)
  da_columns : List (String × List α)
  any_columns : List (String × List α)
  document_type : String
  tensor_type : String
  deriving Repr, DecidableEq

/-- Exact-key lookup in one group's `dict` of columns. -/
def lookupKey {α : Type} (k : String) : List (String × List α) → Option (List α)
  | [] => none
  | (k', c) :: rest => if k' = k then some c else lookupKey k rest

/-- Replace (in place, first occurrence) the column stored under key `k`
in one group's `dict`; a `dict` write to an existing key keeps its
position. -/
def setKey {α : Type} (k : String) (c : List α) : List (String × List α) → List (String × List α)
  | [] => []
  | (k', c') :: rest => if k' = k then (k', c) :: rest else (k', c') :: setKey k c rest

/-- The merged key lookup of `self.columns` — a `ChainMap` over
`tensor_columns, doc_columns, da_columns, any_columns`, which searches
the maps in that order and returns the first hit. -/
def ColumnStorage.lookupColumn {α : Type} (s : ColumnStorage α) (k : String) : Option (List α) :=
  match lookupKey k s.tensor_columns with
  | some c => some c
  | none =>
    match lookupKey k s.doc_columns with
    | some c => some c
    | none =>
      match lookupKey k s.da_columns with
      | some c => some c
      | none => lookupKey k s.any_columns

/-- From the source: `__len__` is `len(self.any_columns['id'])`; a
missing `id` column is a KeyError-class condition of the underlying
`dict`. -/
def ColumnStorage.length {α : Type} (s : ColumnStorage α) : Except PyErr Nat :=
  match lookupKey "id" s.any_columns with
  | some c => .ok c.length
  | none => .error (.keyError "id")

/-- One group's comprehension `{key: col[item] for key, col in group.items()}`:
apply the same index expression to every column, in insertion order,
propagating the first column's error. -/
def mapColsE {α : Type} (e : IndexExpr) : List (String × List α) → Except PyErr (List (String × List α))
  | [] => .ok []
  | (k, c) :: rest =>
    match colIndex e c with
    | .error err => .error err
    | .ok c' =>
      match mapColsE e rest with
      | .error err => .error err
      | .ok rest' => .ok ((k, c') :: rest')

/-- From the source: `ColumnStorage.__getitem__` — normalize a tuple to
a list, apply the same item to every column of the four groups (tensor,
doc, da, any, in that order), and build a new `ColumnStorage` from the
four resulting column maps together with the original `document_type`
and `tensor_type`.  The receiver is never mutated: the operation is a
pure constructor. -/
def ColumnStorage.index {α : Type} (s : ColumnStorage α) (item : IndexExpr) :
    Except PyErr (ColumnStorage α) :=
  match mapColsE (normalizeIndex item) s.tensor_columns with
  | .error e => .error e
  | .ok t =>
    match mapColsE (normalizeIndex item) s.doc_columns with
    | .error e => .error e
    | .ok d =>
      match mapColsE (normalizeIndex item) s.da_columns with
      | .error e => .error e
      | .ok dal =>
        match mapColsE (normalizeIndex item) s.any_columns with
        | .error e => .error e
        | .ok a =>
          .ok { tensor_columns := t, doc_columns := d, da_columns := dal,
                any_columns := a, document_type := s.document_type,
                tensor_type := s.tensor_type }

/-- The per-row view: it is bound to one row index, and it also carries
the payload of its `dict` superclass, which `__init__` (via
`super().__init__()`) leaves empty.  The bound storage is threaded
explicitly as state by the view's operations. -/
structure ColumnStorageView (α : Type) where
  index : Nat
  inheritedDict : List (String × α)
  deriving Repr, DecidableEq

/-- The view constructor `__init__(index, storage)`: stores the bound
index and leaves the inherited `dict` payload empty. -/
def ColumnStorageView.new {α : Type} (i : Nat) : ColumnStorageView α :=
  { index := i, inheritedDict := [] }

/-- Read one cell of a column at a row position: the in-range cell, or
an IndexError-class condition. -/
def cellRead {α : Type} (c : List α) (i : Nat) : Except PyErr α :=
  match c.get? i with
  | some x => .ok x
  | none => .error (.indexError "list index out of range")

/-- From the source: `ColumnStorageView.__getitem__` —
`self.storage.columns[name][self.index]`, i.e. the `ChainMap` lookup of
the column (KeyError-class condition when the name is in no group)
followed by the row read at the bound index. -/
def ColumnStorageView.getItem {α : Type} (v : ColumnStorageView α) (s : ColumnStorage α)
    (name : String) : Except PyErr α :=
  match s.lookupColumn name with
  | none => .error (.keyError name)
  | some c => cellRead c v.index

/-- Write a column back into the first group (tensor, doc, da, any
priority — the `ChainMap` search order) that holds its key; this is the
in-place cell write of the source seen from the outside, as the new
storage state. -/
def ColumnStorage.writeCell {α : Type} (s : ColumnStorage α) (k : String) (c : List α) :
    ColumnStorage α :=
  if (lookupKey k s.tensor_columns).isSome then
    { s with tensor_columns := setKey k c s.tensor_columns }
  else if (lookupKey k s.doc_columns).isSome then
    { s with doc_columns := setKey k c s.doc_columns }
  else if (lookupKey k s.da_columns).isSome then
    { s with da_columns := setKey k c s.da_columns }
  else
    { s with any_columns := setKey k c s.any_columns }

/-- From the source: `ColumnStorageView.__setitem__` —
`self.storage.columns[name][self.index] = value`: the `ChainMap` lookup
of the column (KeyError-class condition when the name is in no group),
then the in-place write of the cell at the bound index (IndexError-class
condition when the index is out of range).  The result is the updated
storage state; the view record itself is untouched. -/
def ColumnStorageView.setItem {α : Type} (v : ColumnStorageView α) (s : ColumnStorage α)
    (name : String) (value : α) : Except PyErr (ColumnStorage α) :=
  match s.lookupColumn name with
  | none => .error (.keyError name)
  | some c =>
    if v.index < c.length then .ok (s.writeCell name (c.set v.index value))
    else .error (.indexError "list assignment index out of range")

/-- From the source: `ColumnStorageView.__delitem__` — unconditionally
`raise RuntimeError('Cannot delete an item from a StorageView')`; no
state is produced or changed. -/
def ColumnStorageView.delItem {α : Type} (_v : ColumnStorageView α) (_s : ColumnStorage α)
    (_key : String) : Except PyErr (ColumnStorage α) :=
  .error (.runtimeError "Cannot delete an item from a StorageView")

/-- The field names of one group, in insertion order. -/
def groupKeys {α : Type} (m : List (String × List α)) : List String :=
  m.map Prod.fst

/-- Append the keys of one map that are not already present, keeping
first-insertion order — one `d.update(dict.fromkeys(mapping))` step of
the `ChainMap` key-iteration algorithm. -/
def chainInsert (acc : List String) : List String → List String
  | [] => acc
  | k :: ks => chainInsert (if k ∈ acc then acc else acc ++ [k]) ks

/-- The key sequence of `self.columns` — CPython's `ChainMap.__iter__`
builds a `dict` by updating from the maps in REVERSE order, so the keys
of `any_columns` come first, then `da_columns`, then `doc_columns`,
then `tensor_columns` (first insertion wins a position). -/
def ColumnStorage.chainKeys {α : Type} (s : ColumnStorage α) : List String :=
  chainInsert
    (chainInsert
      (chainInsert
        (chainInsert [] (groupKeys s.any_columns))
        (groupKeys s.da_columns))
      (groupKeys s.doc_columns))
    (groupKeys s.tensor_columns)

/-- From the source: `ColumnStorageView.__iter__` returns
`self.storage.columns.keys()`; the key sequence that view exposes is the
`ChainMap` key sequence of the bound storage.  (The source returns the
keys view object itself rather than an iterator over it.) -/
def ColumnStorageView.iterKeys {α : Type} (_v : ColumnStorageView α) (s : ColumnStorage α) :
    List String :=
  ColumnStorage.chainKeys s

/-- Invariant I1 at row count `n`: every column of every one of the four
groups has length `n`. -/
@[reducible] def StorageAligned {α : Type} (s : ColumnStorage α) (n : Nat) : Prop :=
  (∀ kc ∈ s.tensor_columns, (kc.2 : List α).length = n) ∧
  (∀ kc ∈ s.doc_columns, (kc.2 : List α).length = n) ∧
  (∀ kc ∈ s.da_columns, (kc.2 : List α).length = n) ∧
  (∀ kc ∈ s.any_columns, (kc.2 : List α).length = n)

/-- Invariant I2: a field name appears in exactly one group — the
concatenation of the four groups' key lists has no duplicate. -/
@[reducible] def KeysDisjoint {α : Type} (s : ColumnStorage α) : Prop :=
  (groupKeys s.tensor_columns ++ groupKeys s.doc_columns ++
    groupKeys s.da_columns ++ groupKeys s.any_columns).Nodup

/-- Invariant I3 at row count `n`: `any_columns` holds an `id` column of
length `n`. -/
@[reducible] def HasId {α : Type} (s : ColumnStorage α) (n : Nat) : Prop :=
  (lookupKey "id" s.any_columns).map List.length = some n

/-- An index expression (already normalized) accepted at row count `n`:
a slice with nonzero step, an integer sequence whose positions are all
within `[0, n)`, or a boolean mask of length exactly `n`. -/
def acceptedB (e : IndexExpr) (n : Nat) : Bool :=
  match e with
  | .slice _ _ step => step != some 0
  | .ints l => l.all fun i => i < n
  | .bools m => m.length == n
  | .intsTuple l => l.all fun i => i < n
  | .boolsTuple m => m.length == n

/-- The row count produced by an accepted index expression on columns of
length `n`. -/
def outLen (e : IndexExpr) (n : Nat) : Nat :=
  match e with
  | .slice a b c =>
    match sliceIndices a b c n with
    | some idxs => (idxs.filter fun i => i < n).length
    | none => 0
  | .ints l => l.length
  | .bools m => m.count true
  | .intsTuple l => l.length
  | .boolsTuple m => m.count true

/-- An index expression rejected at row count `n`: an integer sequence
referencing a position `≥ n`, or a boolean mask whose length is not
`n`. -/
def badIndexB (e : IndexExpr) (n : Nat) : Bool :=
  match e with
  | .slice _ _ _ => false
  | .ints l => l.any fun i => n ≤ i
  | .bools m => m.length != n
  | .intsTuple l => l.any fun i => n ≤ i
  | .boolsTuple m => m.length != n

/-- The error value a column produces for a rejected index expression. -/
def badErr (e : IndexExpr) : PyErr :=
  match e with
  | .ints _ => .indexError "list index out of range"
  | .intsTuple _ => .indexError "list index out of range"
  | _ => .indexError "boolean mask length does not match column length"

/-- All columns of all four groups, in group order then insertion
order, each with its key. -/
def allCols {α : Type} (s : ColumnStorage α) : List (String × List α) :=
  s.tensor_columns ++ s.doc_columns ++ s.da_columns ++ s.any_columns

/-- Python `dict` equality as a relation on the embedded `dict`
payload: the two maps associate the same value to every key. -/
def pyDictEq {α : Type} (d e : List (String × α)) : Prop :=
  ∀ k, d.lookup k = e.lookup k

/-- A three-row example storage with a column in every group:
rows are (10,11,12,1,5), (20,21,22,2,6), (30,31,32,3,7) across columns
t, d, e, id, tag. -/
def exStore : ColumnStorage Nat :=
  { tensor_columns := [("t", [10, 20, 30])],
    doc_columns := [("d", [11, 21, 31])],
    da_columns := [("e", [12, 22, 32])],
    any_columns := [("id", [1, 2, 3]), ("tag", [5, 6, 7])],
    document_type := "MyDoc",
    tensor_type := "NdArray" }

/-- The state of `exStore` after writing 99 into the `tag` column at
row 1. -/
def exStoreAfter : ColumnStorage Nat :=
  { tensor_columns := [("t", [10, 20, 30])],
    doc_columns := [("d", [11, 21, 31])],
    da_columns := [("e", [12, 22, 32])],
    any_columns := [("id", [1, 2, 3]), ("tag", [5, 99, 7])],
    document_type := "MyDoc",
    tensor_type := "NdArray" }

/-- A one-row storage whose first column (hence the first to fail on a
bad index) is the tensor column `x`. -/
def exStoreA : ColumnStorage Nat :=
  { tensor_columns := [("x", [10])],
    doc_columns := [],
    da_columns := [],
    any_columns := [("id", [1])],
    document_type := "MyDoc",
    tensor_type := "NdArray" }

/-- A one-row storage with no tensor column, whose first column to fail
on a bad index is the generic column `id`. -/
def exStoreB : ColumnStorage Nat :=
  { tensor_columns := [],
    doc_columns := [],
    da_columns := [],
    any_columns := [("id", [1]), ("y", [2])],
    document_type := "MyDoc",
    tensor_type := "NdArray" }

/-- The relation between a source column of length `n` and its image
under an accepted index expression. -/
def colRel {α : Type} (e : IndexExpr) (n : Nat) (c c' : List α) : Prop :=
  c.length = n ∧ colIndex e c = Except.ok c' ∧ c'.length = outLen e n

/-- Pointwise `colRel` between one group's columns and their images:
same keys in the same order, every column indexed by the same
expression. -/
def colsRel {α : Type} (e : IndexExpr) (n : Nat) :
    List (String × List α) → List (String × List α) → Prop :=
  List.Forall₂ fun kc kc' => kc.1 = kc'.1 ∧ colRel e n kc.2 kc'.2

theorem gather_ok {α : Type} (col : List α) (l : List Nat) (h : ∀ i ∈ l, i < col.length) :
    ∃ c', gather col l = Except.ok c' ∧ c'.length = l.length := by
  induction l with
  | nil => exact ⟨[], rfl, rfl⟩
  | cons i is ih =>
    have hi : i < col.length := h i (List.mem_cons_self i is)
    obtain ⟨c', hc', hl⟩ := ih fun j hj => h j (List.mem_cons_of_mem i hj)
    refine ⟨col[i] :: c', ?_, by simp [hl]⟩
    simp [gather, List.getElem?_eq_getElem hi, hc']

theorem gather_err {α : Type} (col : List α) (l : List Nat) (h : ∃ i ∈ l, col.length ≤ i) :
    gather col l = Except.error (PyErr.indexError "list index out of range") := by
  induction l with
  | nil => simp at h
  | cons i is ih =>
    by_cases hi : i < col.length
    · have hrest : ∃ j ∈ is, col.length ≤ j := by
        obtain ⟨j, hj, hlen⟩ := h
        rcases List.mem_cons.mp hj with rfl | hj'
        · exact absurd hlen (by omega)
        · exact ⟨j, hj', hlen⟩
      simp [gather, List.getElem?_eq_getElem hi, ih hrest]
    · have hnone : col[i]? = none := List.getElem?_eq_none (Nat.le_of_not_lt hi)
      simp [gather, hnone]

theorem maskSelect_length {α : Type} (m : List Bool) (col : List α) (h : m.length = col.length) :
    (maskSelect m col).length = m.count true := by
  induction m generalizing col with
  | nil => simp [maskSelect]
  | cons b bs ih =>
    cases col with
    | nil => simp at h
    | cons x xs =>
      have h' : bs.length = xs.length := by simpa using h
      cases b with
      | true => simp [maskSelect, ih xs h', List.count_cons]
      | false => simp [maskSelect, ih xs h', List.count_cons]

theorem filterMap_get?_length {α : Type} (col : List α) (idxs : List Nat) :
    (idxs.filterMap fun i => col.get? i).length
      = (idxs.filter fun i => i < col.length).length := by
  simp only [List.get?_eq_getElem?]
  induction idxs with
  | nil => rfl
  | cons i is ih =>
    by_cases h : i < col.length
    · simp [List.filterMap_cons, List.filter_cons, List.getElem?_eq_getElem h, h, ih]
    · simp [List.filterMap_cons, List.filter_cons,
        List.getElem?_eq_none (Nat.le_of_not_lt h), h, ih]

theorem sliceIndices_of_step_ne (start? stop? step? : Option Int) (n : Nat)
    (h : step? ≠ some 0) : ∃ idxs, sliceIndices start? stop? step? n = some idxs := by
  have hst : (step?.getD 1) ≠ 0 := by
    cases step? with
    | none => simp
    | some k =>
      simp only [Option.getD_some]
      intro hk
      exact h (by rw [hk])
  simp only [sliceIndices]
  rw [if_neg hst]
  split
  · exact ⟨_, rfl⟩
  · exact ⟨_, rfl⟩

theorem colIndex_ok {α : Type} (e : IndexExpr) (n : Nat) (col : List α)
    (hn : col.length = n) (hacc : acceptedB e n = true) :
    ∃ c', colIndex e col = Except.ok c' ∧ c'.length = outLen e n := by
  subst hn
  cases e with
  | slice a b c =>
    have hc : c ≠ some 0 := by simpa [acceptedB] using hacc
    obtain ⟨idxs, hidx⟩ := sliceIndices_of_step_ne a b c col.length hc
    refine ⟨idxs.filterMap fun i => col.get? i, by simp [colIndex, hidx], ?_⟩
    rw [filterMap_get?_length]
    simp [outLen, hidx]
  | ints l =>
    have hall : ∀ i ∈ l, i < col.length := by
      simpa [acceptedB, List.all_eq_true] using hacc
    obtain ⟨c', h1, h2⟩ := gather_ok col l hall
    exact ⟨c', h1, by simpa [outLen] using h2⟩
  | bools m =>
    have hm : m.length = col.length := by simpa [acceptedB] using hacc
    refine ⟨maskSelect m col, by simp [colIndex, hm], ?_⟩
    simpa [outLen] using maskSelect_length m col hm
  | intsTuple l =>
    have hall : ∀ i ∈ l, i < col.length := by
      simpa [acceptedB, List.all_eq_true] using hacc
    obtain ⟨c', h1, h2⟩ := gather_ok col l hall
    exact ⟨c', by simpa [colIndex] using h1, by simpa [outLen] using h2⟩
  | boolsTuple m =>
    have hm : m.length = col.length := by simpa [acceptedB] using hacc
    refine ⟨maskSelect m col, by simp [colIndex, hm], ?_⟩
    simpa [outLen] using maskSelect_length m col hm

theorem mapColsE_ok {α : Type} (e : IndexExpr) (n : Nat) (cols : List (String × List α))
    (hlen : ∀ kc ∈ cols, (kc.2 : List α).length = n) (hacc : acceptedB e n = true) :
    ∃ cols', mapColsE e cols = Except.ok cols' ∧ colsRel e n cols cols' := by
  induction cols with
  | nil => exact ⟨[], rfl, List.Forall₂.nil⟩
  | cons kc rest ih =>
    obtain ⟨k, c⟩ := kc
    have hc : c.length = n := hlen (k, c) (List.mem_cons_self _ _)
    obtain ⟨c', hc', hlen'⟩ := colIndex_ok e n c hc hacc
    obtain ⟨rest', hrest', hrel⟩ := ih fun x hx => hlen x (List.mem_cons_of_mem _ hx)
    refine ⟨(k, c') :: rest', by simp [mapColsE, hc', hrest'], ?_⟩
    exact List.Forall₂.cons ⟨rfl, hc, hc', hlen'⟩ hrel

theorem colsRel_keys {α : Type} {e : IndexExpr} {n : Nat}
    {cols cols' : List (String × List α)} (h : colsRel e n cols cols') :
    groupKeys cols = groupKeys cols' := by
  induction h with
  | nil => rfl
  | cons hr _ ih =>
    simp only [groupKeys, List.map_cons] at ih ⊢
    rw [hr.1]
    exact congrArg _ ih

theorem colsRel_len_right {α : Type} {e : IndexExpr} {n : Nat}
    {cols cols' : List (String × List α)} (h : colsRel e n cols cols') :
    ∀ kc' ∈ cols', (kc'.2 : List α).length = outLen e n := by
  induction h with
  | nil => intro kc' h'; simp at h'
  | cons hr _ ih =>
    intro kc' h'
    rcases List.mem_cons.mp h' with rfl | h''
    · exact hr.2.2.2
    · exact ih kc' h''

theorem colsRel_lookup {α : Type} {e : IndexExpr} {n : Nat}
    {cols cols' : List (String × List α)} (h : colsRel e n cols cols') (k : String) :
    ∀ c, lookupKey k cols = some c →
      ∃ c', lookupKey k cols' = some c' ∧ colRel e n c c' := by
  induction h with
  | nil => intro c hc; simp [lookupKey] at hc
  | cons hr hrest ih =>
    intro c hc
    rename_i kc kc' l1 l2
    obtain ⟨k1, c1⟩ := kc
    obtain ⟨k1', c1'⟩ := kc'
    obtain ⟨hk, hcr⟩ := hr
    simp only at hk
    subst hk
    simp only [lookupKey] at hc ⊢
    by_cases hkk : k1 = k
    · rw [if_pos hkk] at hc ⊢
      obtain rfl : c1 = c := Option.some.inj hc
      exact ⟨c1', rfl, hcr⟩
    · rw [if_neg hkk] at hc ⊢
      exact ih c hc

theorem index_ok {α : Type} (s : ColumnStorage α) (e : IndexExpr) (n : Nat)
    (h1 : StorageAligned s n) (hacc : acceptedB (normalizeIndex e) n = true) :
    ∃ s', s.index e = Except.ok s' ∧
      mapColsE (normalizeIndex e) s.tensor_columns = Except.ok s'.tensor_columns ∧
      mapColsE (normalizeIndex e) s.doc_columns = Except.ok s'.doc_columns ∧
      mapColsE (normalizeIndex e) s.da_columns = Except.ok s'.da_columns ∧
      mapColsE (normalizeIndex e) s.any_columns = Except.ok s'.any_columns ∧
      s'.document_type = s.document_type ∧ s'.tensor_type = s.tensor_type ∧
      colsRel (normalizeIndex e) n s.tensor_columns s'.tensor_columns ∧
      colsRel (normalizeIndex e) n s.doc_columns s'.doc_columns ∧
      colsRel (normalizeIndex e) n s.da_columns s'.da_columns ∧
      colsRel (normalizeIndex e) n s.any_columns s'.any_columns := by
  obtain ⟨h1t, h1d, h1a, h1y⟩ := h1
  obtain ⟨t, ht, hrt⟩ := mapColsE_ok _ n _ h1t hacc
  obtain ⟨d, hd, hrd⟩ := mapColsE_ok _ n _ h1d hacc
  obtain ⟨dal, hda, hrda⟩ := mapColsE_ok _ n _ h1a hacc
  obtain ⟨a, ha, hra⟩ := mapColsE_ok _ n _ h1y hacc
  exact ⟨⟨t, d, dal, a, s.document_type, s.tensor_type⟩,
    by simp [ColumnStorage.index, ht, hd, hda, ha],
    ht, hd, hda, ha, rfl, rfl, hrt, hrd, hrda, hra⟩

theorem length_three_cases {α : Type} (col : List α) (h : col.length = 3) :
    ∃ x y z, col = [x, y, z] := by
  cases col with
  | nil => simp at h
  | cons x t =>
    cases t with
    | nil => simp at h
    | cons y t2 =>
      cases t2 with
      | nil => simp at h
      | cons z t3 =>
        cases t3 with
        | nil => exact ⟨x, y, z, rfl⟩
        | cons w t4 => simp at h

/-- C1: for every storage satisfying I1–I3 and every accepted index
expression (slice, in-range integer sequence, boolean mask of length N,
or tuple normalized first to a list), `index(item)` applies the same
expression independently to every column of all four groups, and
returns a new storage built from the four resulting column maps with
the original `document_type` and `tensor_type`; the result satisfies
I1–I3 at the new row count. -/
theorem c1_index_dispatches_groups_and_preserves_invariants {α : Type}
    (s : ColumnStorage α) (e : IndexExpr) (n : Nat)
    (h1 : StorageAligned s n) (h2 : KeysDisjoint s) (h3 : HasId s n)
    (hacc : acceptedB (normalizeIndex e) n = true) :
    ∃ s', s.index e = Except.ok s' ∧
      mapColsE (normalizeIndex e) s.tensor_columns = Except.ok s'.tensor_columns ∧
      mapColsE (normalizeIndex e) s.doc_columns = Except.ok s'.doc_columns ∧
      mapColsE (normalizeIndex e) s.da_columns = Except.ok s'.da_columns ∧
      mapColsE (normalizeIndex e) s.any_columns = Except.ok s'.any_columns ∧
      s'.document_type = s.document_type ∧ s'.tensor_type = s.tensor_type ∧
      StorageAligned s' (outLen (normalizeIndex e) n) ∧
      KeysDisjoint s' ∧
      HasId s' (outLen (normalizeIndex e) n) := by
  obtain ⟨s', hok, hm1, hm2, hm3, hm4, hdt, htt, hr1, hr2, hr3, hr4⟩ := index_ok s e n h1 hacc
  refine ⟨s', hok, hm1, hm2, hm3, hm4, hdt, htt, ?_, ?_, ?_⟩
  · exact ⟨colsRel_len_right hr1, colsRel_len_right hr2,
      colsRel_len_right hr3, colsRel_len_right hr4⟩
  · unfold KeysDisjoint
    rw [← colsRel_keys hr1, ← colsRel_keys hr2, ← colsRel_keys hr3, ← colsRel_keys hr4]
    exact h2
  · unfold HasId at h3 ⊢
    cases hl : lookupKey "id" s.any_columns with
    | none => rw [hl] at h3; simp at h3
    | some c =>
      rw [hl] at h3
      obtain ⟨c', hc', hrel⟩ := colsRel_lookup hr4 "id" c hl
      rw [hc']
      simp [hrel.2.2]

/-- Witness for C1: the three-row example storage, indexed by the
integer list [1, 0]. -/
theorem c1_witness :
    (StorageAligned exStore 3 ∧ KeysDisjoint exStore ∧ HasId exStore 3 ∧
      acceptedB (normalizeIndex (IndexExpr.ints [1, 0])) 3 = true) ∧
    (∃ s', exStore.index (IndexExpr.ints [1, 0]) = Except.ok s' ∧
      mapColsE (normalizeIndex (IndexExpr.ints [1, 0])) exStore.tensor_columns
        = Except.ok s'.tensor_columns ∧
      mapColsE (normalizeIndex (IndexExpr.ints [1, 0])) exStore.doc_columns
        = Except.ok s'.doc_columns ∧
      mapColsE (normalizeIndex (IndexExpr.ints [1, 0])) exStore.da_columns
        = Except.ok s'.da_columns ∧
      mapColsE (normalizeIndex (IndexExpr.ints [1, 0])) exStore.any_columns
        = Except.ok s'.any_columns ∧
      s'.document_type = exStore.document_type ∧ s'.tensor_type = exStore.tensor_type ∧
      StorageAligned s' (outLen (normalizeIndex (IndexExpr.ints [1, 0])) 3) ∧
      KeysDisjoint s' ∧
      HasId s' (outLen (normalizeIndex (IndexExpr.ints [1, 0])) 3)) :=
  ⟨⟨by decide, by decide, by decide, by decide⟩,
    c1_index_dispatches_groups_and_preserves_invariants exStore (IndexExpr.ints [1, 0]) 3
      (by decide) (by decide) (by decide) (by decide)⟩

/-- C2: on any aligned three-row storage of rows A, B, C, the gather
index [2, 0, 0] yields rows C, A, A in every column of every one of the
four groups simultaneously (order, duplication and reordering follow
the index list), and the mask [true, false, true] yields rows A, C in
every column, preserving the original relative order. -/
theorem c2_gather_order_and_mask_selection {α : Type} (s : ColumnStorage α)
    (h : StorageAligned s 3) :
    ∃ t u, s.index (IndexExpr.ints [2, 0, 0]) = Except.ok t ∧
      s.index (IndexExpr.bools [true, false, true]) = Except.ok u ∧
      List.Forall₂ (fun kc kc' => kc.1 = kc'.1 ∧
        ∀ x y z : α, kc.2 = [x, y, z] → kc'.2 = [z, x, x]) (allCols s) (allCols t) ∧
      List.Forall₂ (fun kc kc' => kc.1 = kc'.1 ∧
        ∀ x y z : α, kc.2 = [x, y, z] → kc'.2 = [x, z]) (allCols s) (allCols u) := by
  obtain ⟨t, hti, _, _, _, _, _, _, hrt1, hrt2, hrt3, hrt4⟩ :=
    index_ok s (.ints [2, 0, 0]) 3 h (by decide)
  obtain ⟨u, hui, _, _, _, _, _, _, hru1, hru2, hru3, hru4⟩ :=
    index_ok s (.bools [true, false, true]) 3 h (by decide)
  have himpg : ∀ kc kc' : String × List α,
      (kc.1 = kc'.1 ∧ colRel (normalizeIndex (.ints [2, 0, 0])) 3 kc.2 kc'.2) →
      (kc.1 = kc'.1 ∧ ∀ x y z : α, kc.2 = [x, y, z] → kc'.2 = [z, x, x]) := by
    rintro ⟨k1, c1⟩ ⟨k1', c1'⟩ ⟨hk, _, hci, _⟩
    refine ⟨hk, ?_⟩
    intro x y z hxyz
    subst hxyz
    have hval : colIndex (normalizeIndex (IndexExpr.ints [2, 0, 0])) [x, y, z]
        = Except.ok [z, x, x] := rfl
    rw [hval] at hci
    exact (Except.ok.inj hci).symm
  have himpm : ∀ kc kc' : String × List α,
      (kc.1 = kc'.1 ∧ colRel (normalizeIndex (.bools [true, false, true])) 3 kc.2 kc'.2) →
      (kc.1 = kc'.1 ∧ ∀ x y z : α, kc.2 = [x, y, z] → kc'.2 = [x, z]) := by
    rintro ⟨k1, c1⟩ ⟨k1', c1'⟩ ⟨hk, _, hci, _⟩
    refine ⟨hk, ?_⟩
    intro x y z hxyz
    subst hxyz
    have hval : colIndex (normalizeIndex (IndexExpr.bools [true, false, true])) [x, y, z]
        = Except.ok [x, z] := rfl
    rw [hval] at hci
    exact (Except.ok.inj hci).symm
  refine ⟨t, u, hti, hui, ?_, ?_⟩
  · exact List.rel_append
      (List.rel_append (List.rel_append (hrt1.imp himpg) (hrt2.imp himpg)) (hrt3.imp himpg))
      (hrt4.imp himpg)
  · exact List.rel_append
      (List.rel_append (List.rel_append (hru1.imp himpm) (hru2.imp himpm)) (hru3.imp himpm))
      (hru4.imp himpm)

/-- Witness for C2: the three-row example storage. -/
theorem c2_witness :
    StorageAligned exStore 3 ∧
    (∃ t u, exStore.index (IndexExpr.ints [2, 0, 0]) = Except.ok t ∧
      exStore.index (IndexExpr.bools [true, false, true]) = Except.ok u ∧
      List.Forall₂ (fun kc kc' => kc.1 = kc'.1 ∧
        ∀ x y z : Nat, kc.2 = [x, y, z] → kc'.2 = [z, x, x]) (allCols exStore) (allCols t) ∧
      List.Forall₂ (fun kc kc' => kc.1 = kc'.1 ∧
        ∀ x y z : Nat, kc.2 = [x, y, z] → kc'.2 = [x, z]) (allCols exStore) (allCols u)) :=
  ⟨by decide, c2_gather_order_and_mask_selection exStore (by decide)⟩

/-- C4: on every storage whose `any_columns` contains an `id` column,
`length()` returns exactly that column's length. -/
theorem c4_length_is_id_column_length {α : Type} (s : ColumnStorage α) (c : List α)
    (h : lookupKey "id" s.any_columns = some c) :
    ColumnStorage.length s = Except.ok c.length := by
  simp [ColumnStorage.length, h]

/-- Witness for C4: the three-row example storage has id column of
length 3. -/
theorem c4_witness :
    lookupKey "id" exStore.any_columns = some [1, 2, 3] ∧
    ColumnStorage.length exStore = Except.ok ([1, 2, 3] : List Nat).length :=
  ⟨by decide, c4_length_is_id_column_length exStore [1, 2, 3] (by decide)⟩

theorem lookupKey_setKey_self {α : Type} (k : String) (c' : List α)
    (m : List (String × List α)) (h : (lookupKey k m).isSome) :
    lookupKey k (setKey k c' m) = some c' := by
  induction m with
  | nil => simp [lookupKey] at h
  | cons kc rest ih =>
    obtain ⟨k1, c1⟩ := kc
    by_cases hk : k1 = k
    · simp [setKey, lookupKey, hk]
    · simp only [setKey, lookupKey, if_neg hk] at h ⊢
      exact ih h

theorem lookupKey_setKey_ne {α : Type} (k k' : String) (c' : List α)
    (m : List (String × List α)) (h : k' ≠ k) :
    lookupKey k' (setKey k c' m) = lookupKey k' m := by
  induction m with
  | nil => rfl
  | cons kc rest ih =>
    obtain ⟨k1, c1⟩ := kc
    by_cases hk : k1 = k
    · subst hk
      have hne : ¬(k1 = k') := fun hh => h hh.symm
      simp [setKey, lookupKey, hne]
    · simp [setKey, lookupKey, hk, ih]

theorem lookupColumn_writeCell_self {α : Type} (s : ColumnStorage α) (k : String)
    (c c' : List α) (hk : s.lookupColumn k = some c) :
    (s.writeCell k c').lookupColumn k = some c' := by
  cases h1 : lookupKey k s.tensor_columns with
  | some c1 =>
    have hs : (lookupKey k s.tensor_columns).isSome := by rw [h1]; rfl
    simp [ColumnStorage.writeCell, h1, ColumnStorage.lookupColumn,
      lookupKey_setKey_self k c' s.tensor_columns hs]
  | none =>
    cases h2 : lookupKey k s.doc_columns with
    | some c2 =>
      have hs : (lookupKey k s.doc_columns).isSome := by rw [h2]; rfl
      simp [ColumnStorage.writeCell, h1, h2, ColumnStorage.lookupColumn,
        lookupKey_setKey_self k c' s.doc_columns hs]
    | none =>
      cases h3 : lookupKey k s.da_columns with
      | some c3 =>
        have hs : (lookupKey k s.da_columns).isSome := by rw [h3]; rfl
        simp [ColumnStorage.writeCell, h1, h2, h3, ColumnStorage.lookupColumn,
          lookupKey_setKey_self k c' s.da_columns hs]
      | none =>
        have h4 : lookupKey k s.any_columns = some c := by
          simpa [ColumnStorage.lookupColumn, h1, h2, h3] using hk
        have hs : (lookupKey k s.any_columns).isSome := by rw [h4]; rfl
        simp [ColumnStorage.writeCell, h1, h2, h3, ColumnStorage.lookupColumn,
          lookupKey_setKey_self k c' s.any_columns hs]

theorem lookupColumn_writeCell_ne {α : Type} (s : ColumnStorage α) (k k' : String)
    (c' : List α) (h : k' ≠ k) :
    (s.writeCell k c').lookupColumn k' = s.lookupColumn k' := by
  unfold ColumnStorage.writeCell
  split
  · simp [ColumnStorage.lookupColumn, lookupKey_setKey_ne k k' c' _ h]
  · split
    · simp [ColumnStorage.lookupColumn, lookupKey_setKey_ne k k' c' _ h]
    · split
      · simp [ColumnStorage.lookupColumn, lookupKey_setKey_ne k k' c' _ h]
      · simp [ColumnStorage.lookupColumn, lookupKey_setKey_ne k k' c' _ h]

/-- C3: writing value v to key k through a view bound to a valid row and
an existing column succeeds, and reading k back through the same view —
or through a freshly constructed view bound to the same (storage, index)
— returns v. -/
theorem c3_view_set_get_roundtrip {α : Type} (v : ColumnStorageView α)
    (s : ColumnStorage α) (k : String) (x : α) (c : List α)
    (hk : s.lookupColumn k = some c) (hi : v.index < c.length) :
    ∃ s', v.setItem s k x = Except.ok s' ∧
      v.getItem s' k = Except.ok x ∧
      (ColumnStorageView.new v.index).getItem s' k = Except.ok x := by
  refine ⟨s.writeCell k (c.set v.index x), ?_, ?_, ?_⟩
  · simp [ColumnStorageView.setItem, hk, hi]
  · have hl := lookupColumn_writeCell_self s k c (c.set v.index x) hk
    simp [ColumnStorageView.getItem, hl, cellRead, hi]
  · have hl := lookupColumn_writeCell_self s k c (c.set v.index x) hk
    simp [ColumnStorageView.getItem, ColumnStorageView.new, hl, cellRead, hi]

/-- Witness for C3: write 99 at row 1 of column tag of the example
storage and read it back. -/
theorem c3_witness :
    (ColumnStorage.lookupColumn exStore "tag" = some [5, 6, 7] ∧
      (ColumnStorageView.new (α := Nat) 1).index < ([5, 6, 7] : List Nat).length) ∧
    (∃ s', (ColumnStorageView.new 1).setItem exStore "tag" 99 = Except.ok s' ∧
      (ColumnStorageView.new 1).getItem s' "tag" = Except.ok 99 ∧
      (ColumnStorageView.new (ColumnStorageView.new (α := Nat) 1).index).getItem s' "tag"
        = Except.ok 99) :=
  ⟨⟨by rfl, by decide⟩,
    c3_view_set_get_roundtrip (ColumnStorageView.new 1) exStore "tag" 99 [5, 6, 7]
      (by rfl) (by decide)⟩

/-- C6: a write through one view is observed by any view with the same
bound index, and views bound to a different index — or reads of a
different key — observe exactly the values they observed before the
write: only the (index, key) cell changes. -/
theorem c6_write_visibility_and_frame {α : Type} (v w : ColumnStorageView α)
    (s s' : ColumnStorage α) (k : String) (x : α)
    (hset : v.setItem s k x = Except.ok s') :
    (w.index = v.index → w.getItem s' k = Except.ok x) ∧
    (∀ k', w.index ≠ v.index ∨ k' ≠ k → w.getItem s' k' = w.getItem s k') := by
  cases hlk : s.lookupColumn k with
  | none => simp [ColumnStorageView.setItem, hlk] at hset
  | some c =>
    simp only [ColumnStorageView.setItem, hlk] at hset
    by_cases hi : v.index < c.length
    · rw [if_pos hi] at hset
      obtain rfl : s.writeCell k (c.set v.index x) = s' := Except.ok.inj hset
      have hl := lookupColumn_writeCell_self s k c (c.set v.index x) hlk
      constructor
      · intro hw
        simp [ColumnStorageView.getItem, hl, cellRead, hw, hi]
      · intro k' hor
        by_cases hk' : k' = k
        · subst hk'
          have hwv : w.index ≠ v.index := hor.resolve_right fun hh => hh rfl
          simp [ColumnStorageView.getItem, hl, hlk, cellRead,
            List.getElem?_set_ne (Ne.symm hwv)]
        · have hne := lookupColumn_writeCell_ne s k k' (c.set v.index x) hk'
          unfold ColumnStorageView.getItem
          rw [hne]
    · rw [if_neg hi] at hset; exact absurd hset (by simp)

/-- Witness for C6: the write of 99 at row 1 of tag in the example
storage, observed through a second view bound to the same index. -/
theorem c6_witness :
    (ColumnStorageView.new (α := Nat) 1).setItem exStore "tag" 99 = Except.ok exStoreAfter ∧
    (((ColumnStorageView.new (α := Nat) 1).index = (ColumnStorageView.new (α := Nat) 1).index →
        (ColumnStorageView.new 1).getItem exStoreAfter "tag" = Except.ok 99) ∧
      (∀ k', (ColumnStorageView.new (α := Nat) 1).index
            ≠ (ColumnStorageView.new (α := Nat) 1).index ∨ k' ≠ "tag" →
        (ColumnStorageView.new 1).getItem exStoreAfter k'
          = (ColumnStorageView.new 1).getItem exStore k')) :=
  ⟨by rfl,
    c6_write_visibility_and_frame (ColumnStorageView.new 1) (ColumnStorageView.new 1)
      exStore exStoreAfter "tag" 99 (by rfl)⟩

/-- C7: a view's read of key k returns the bound storage's current
column for k (resolved through the ChainMap at read time) at the bound
index; lookup fails for k exactly when k is absent from all four column
groups, and in exactly that case both the read and the write fail with
a KeyError-class condition. -/
theorem c7_view_lookup_and_key_errors {α : Type} (v : ColumnStorageView α)
    (s : ColumnStorage α) (k : String) (x : α) :
    (∀ c, s.lookupColumn k = some c → v.getItem s k = cellRead c v.index) ∧
    (s.lookupColumn k = none ↔
      lookupKey k s.tensor_columns = none ∧ lookupKey k s.doc_columns = none ∧
        lookupKey k s.da_columns = none ∧ lookupKey k s.any_columns = none) ∧
    ((∃ msg, v.getItem s k = Except.error (PyErr.keyError msg)) ↔ s.lookupColumn k = none) ∧
    ((∃ msg, v.setItem s k x = Except.error (PyErr.keyError msg)) ↔ s.lookupColumn k = none) := by
  refine ⟨?_, ?_, ?_, ?_⟩
  · intro c hc
    simp [ColumnStorageView.getItem, hc]
  · unfold ColumnStorage.lookupColumn
    cases h1 : lookupKey k s.tensor_columns <;> cases h2 : lookupKey k s.doc_columns <;>
      cases h3 : lookupKey k s.da_columns <;> simp
  · cases hc : s.lookupColumn k with
    | none => simp [ColumnStorageView.getItem, hc]
    | some c =>
      simp only [ColumnStorageView.getItem, hc]
      constructor
      · rintro ⟨msg, hmsg⟩
        unfold cellRead at hmsg
        cases hg : c.get? v.index with
        | some y => rw [hg] at hmsg; exact absurd hmsg (by simp)
        | none => rw [hg] at hmsg; exact absurd hmsg (by simp)
      · intro hfalse
        exact absurd hfalse (by simp)
  · cases hc : s.lookupColumn k with
    | none => simp [ColumnStorageView.setItem, hc]
    | some c =>
      simp only [ColumnStorageView.setItem, hc]
      constructor
      · rintro ⟨msg, hmsg⟩
        by_cases hi : v.index < c.length
        · rw [if_pos hi] at hmsg; exact absurd hmsg (by simp)
        · rw [if_neg hi] at hmsg; exact absurd hmsg (by simp)
      · intro hfalse
        exact absurd hfalse (by simp)

/-- Witness for C7: the view read of tag at row 0 of the example
storage, with the lookup and KeyError characterizations instantiated. -/
theorem c7_witness :
    (∀ c, exStore.lookupColumn "tag" = some c →
      (ColumnStorageView.new 0).getItem exStore "tag"
        = cellRead c (ColumnStorageView.new (α := Nat) 0).index) ∧
    (exStore.lookupColumn "tag" = none ↔
      lookupKey "tag" exStore.tensor_columns = none ∧
        lookupKey "tag" exStore.doc_columns = none ∧
        lookupKey "tag" exStore.da_columns = none ∧
        lookupKey "tag" exStore.any_columns = none) ∧
    ((∃ msg, (ColumnStorageView.new 0).getItem exStore "tag"
        = Except.error (PyErr.keyError msg)) ↔ exStore.lookupColumn "tag" = none) ∧
    ((∃ msg, (ColumnStorageView.new 0).setItem exStore "tag" 42
        = Except.error (PyErr.keyError msg)) ↔ exStore.lookupColumn "tag" = none) :=
  c7_view_lookup_and_key_errors (ColumnStorageView.new 0) exStore "tag" 42

/-- C8: deleting a field through a view always fails with the
RuntimeError-class condition, for every key and every storage state,
and never produces a storage (so the bound storage is unchanged by the
failed attempt). -/
theorem c8_delete_always_fails {α : Type} (v : ColumnStorageView α) (s : ColumnStorage α)
    (k : String) :
    v.delItem s k
        = Except.error (PyErr.runtimeError "Cannot delete an item from a StorageView") ∧
    ∀ s', v.delItem s k ≠ Except.ok s' := by
  exact ⟨rfl, fun s' h => by simp [ColumnStorageView.delItem] at h⟩

theorem colIndex_bad {α : Type} (e : IndexExpr) (n : Nat) (col : List α)
    (hn : col.length = n) (hbad : badIndexB e n = true) :
    colIndex e col = Except.error (badErr e) := by
  subst hn
  cases e with
  | slice a b c => simp [badIndexB] at hbad
  | ints l =>
    have hex : ∃ i ∈ l, col.length ≤ i := by
      simpa [badIndexB, List.any_eq_true] using hbad
    simpa [colIndex, badErr] using gather_err col l hex
  | bools m =>
    have hm : ¬(m.length = col.length) := by simpa [badIndexB] using hbad
    simp [colIndex, badErr, hm]
  | intsTuple l =>
    have hex : ∃ i ∈ l, col.length ≤ i := by
      simpa [badIndexB, List.any_eq_true] using hbad
    simpa [colIndex, badErr] using gather_err col l hex
  | boolsTuple m =>
    have hm : ¬(m.length = col.length) := by simpa [badIndexB] using hbad
    simp [colIndex, badErr, hm]

theorem mapColsE_all_err {α : Type} (e : IndexExpr) (err : PyErr)
    (cols : List (String × List α)) (h : ∀ kc ∈ cols, colIndex e kc.2 = Except.error err) :
    mapColsE e cols = Except.ok [] ∨ mapColsE e cols = Except.error err := by
  cases cols with
  | nil => exact Or.inl rfl
  | cons kc rest =>
    right
    obtain ⟨k, c⟩ := kc
    have hc := h (k, c) (List.mem_cons_self _ _)
    simp only at hc
    simp [mapColsE, hc]

/-- C5 (amended): with I1 and I3 in force, `index(item)` on an integer
sequence referencing a position `≥ N` or on a boolean mask whose length
differs from N fails with an IndexError-class condition — the offending
column's own error, propagated unchanged, which does NOT name the
offending group or key; the receiver is never mutated, since indexing is
a pure constructor of a new storage. -/
theorem c5_bad_index_error {α : Type} (s : ColumnStorage α) (e : IndexExpr) (n : Nat)
    (h1 : StorageAligned s n) (h3 : HasId s n)
    (hbad : badIndexB (normalizeIndex e) n = true) :
    s.index e = Except.error (badErr (normalizeIndex e)) := by
  obtain ⟨h1t, h1d, h1a, h1y⟩ := h1
  have herr : ∀ cols : List (String × List α), (∀ kc ∈ cols, (kc.2 : List α).length = n) →
      ∀ kc ∈ cols, colIndex (normalizeIndex e) kc.2
        = Except.error (badErr (normalizeIndex e)) :=
    fun _ hc kc hkc => colIndex_bad (normalizeIndex e) n kc.2 (hc kc hkc) hbad
  have hanyerr : mapColsE (normalizeIndex e) s.any_columns
      = Except.error (badErr (normalizeIndex e)) := by
    cases hc : s.any_columns with
    | nil =>
      unfold HasId at h3
      rw [hc] at h3
      simp [lookupKey] at h3
    | cons kc rest =>
      obtain ⟨k, c⟩ := kc
      have hcol := herr s.any_columns h1y (k, c) (by rw [hc]; exact List.mem_cons_self _ _)
      simp only at hcol
      simp [mapColsE, hcol]
  rcases mapColsE_all_err (normalizeIndex e) (badErr (normalizeIndex e))
      s.tensor_columns (herr _ h1t) with ht | ht <;>
    rcases mapColsE_all_err (normalizeIndex e) (badErr (normalizeIndex e))
        s.doc_columns (herr _ h1d) with hd | hd <;>
      rcases mapColsE_all_err (normalizeIndex e) (badErr (normalizeIndex e))
          s.da_columns (herr _ h1a) with hda | hda <;>
        simp [ColumnStorage.index, ht, hd, hda, hanyerr]

/-- Witness for C5 (amended): the out-of-range gather [5] on the
three-row example storage. -/
theorem c5_witness :
    (StorageAligned exStore 3 ∧ HasId exStore 3 ∧
      badIndexB (normalizeIndex (IndexExpr.ints [5])) 3 = true) ∧
    exStore.index (IndexExpr.ints [5])
      = Except.error (badErr (normalizeIndex (IndexExpr.ints [5]))) :=
  ⟨⟨by decide, by decide, by decide⟩,
    c5_bad_index_error exStore (IndexExpr.ints [5]) 3 (by decide) (by decide) (by decide)⟩

/-- C5 counterexample: two storages whose first out-of-range column
lives in a different group and under a different key produce the
IDENTICAL error value from `index([5])`, so the IndexError-class
condition raised by indexing carries no information naming the
offending group or key — refuting the claim's naming requirement. -/
theorem c5_counterexample :
    exStoreA.index (IndexExpr.ints [5])
        = Except.error (PyErr.indexError "list index out of range") ∧
    exStoreB.index (IndexExpr.ints [5])
        = Except.error (PyErr.indexError "list index out of range") ∧
    exStoreA.index (IndexExpr.ints [5]) = exStoreB.index (IndexExpr.ints [5]) ∧
    groupKeys exStoreA.tensor_columns ≠ groupKeys exStoreB.tensor_columns ∧
    groupKeys exStoreA.any_columns ≠ groupKeys exStoreB.any_columns :=
  ⟨rfl, rfl, rfl, by decide, by decide⟩

theorem chainInsert_append (acc ks : List String) (hnd : ks.Nodup)
    (hdisj : ∀ k ∈ ks, k ∉ acc) : chainInsert acc ks = acc ++ ks := by
  induction ks generalizing acc with
  | nil => simp [chainInsert]
  | cons k ks ih =>
    have hk : k ∉ acc := hdisj k (List.mem_cons_self _ _)
    have hnd' : ks.Nodup := hnd.of_cons
    have hdisj' : ∀ j ∈ ks, j ∉ acc ++ [k] := by
      intro j hj
      simp only [List.mem_append, List.mem_singleton]
      rintro (hja | rfl)
      · exact hdisj j (List.mem_cons_of_mem _ hj) hja
      · exact (List.nodup_cons.mp hnd).1 hj
    simp only [chainInsert, if_neg hk]
    rw [ih (acc ++ [k]) hnd' hdisj']
    simp

/-- C9 (amended): the key sequence exposed by a view's key iteration is
the field names of the four groups in REVERSE group order — any, then
da, then doc, then tensor — with insertion order within each group,
because the merged ChainMap iterates its maps in reverse; moreover the
source's `__iter__` returns the keys view object itself rather than an
iterator over it. -/
theorem c9_amended_chainmap_key_order {α : Type} (v : ColumnStorageView α)
    (s : ColumnStorage α) (h : KeysDisjoint s) :
    v.iterKeys s = groupKeys s.any_columns ++ groupKeys s.da_columns ++
      groupKeys s.doc_columns ++ groupKeys s.tensor_columns := by
  obtain ⟨h3, hY, dY⟩ := List.nodup_append.mp h
  obtain ⟨h2, hDa, dDa⟩ := List.nodup_append.mp h3
  obtain ⟨hT, hD, dD⟩ := List.nodup_append.mp h2
  have s1 : chainInsert [] (groupKeys s.any_columns) = groupKeys s.any_columns := by
    rw [chainInsert_append [] _ hY (by simp)]
    simp
  have s2 : chainInsert (groupKeys s.any_columns) (groupKeys s.da_columns)
      = groupKeys s.any_columns ++ groupKeys s.da_columns := by
    refine chainInsert_append _ _ hDa ?_
    intro k hk hkY
    exact dY (List.mem_append_right _ hk) hkY
  have s3 : chainInsert (groupKeys s.any_columns ++ groupKeys s.da_columns)
      (groupKeys s.doc_columns)
      = (groupKeys s.any_columns ++ groupKeys s.da_columns) ++ groupKeys s.doc_columns := by
    refine chainInsert_append _ _ hD ?_
    intro k hk
    simp only [List.mem_append]
    rintro (hkY | hkDa)
    · exact dY (List.mem_append_left _ (List.mem_append_right _ hk)) hkY
    · exact dDa (List.mem_append_right _ hk) hkDa
  have s4 : chainInsert
      ((groupKeys s.any_columns ++ groupKeys s.da_columns) ++ groupKeys s.doc_columns)
      (groupKeys s.tensor_columns)
      = ((groupKeys s.any_columns ++ groupKeys s.da_columns) ++ groupKeys s.doc_columns)
        ++ groupKeys s.tensor_columns := by
    refine chainInsert_append _ _ hT ?_
    intro k hk
    simp only [List.mem_append]
    rintro ((hkY | hkDa) | hkD)
    · exact dY (List.mem_append_left _ (List.mem_append_left _ hk)) hkY
    · exact dDa (List.mem_append_left _ hk) hkDa
    · exact dD hk hkD
  unfold ColumnStorageView.iterKeys ColumnStorage.chainKeys
  rw [s1, s2, s3, s4]

/-- C9 counterexample: on the example storage, the key sequence the view
exposes is any → da → doc → tensor — not the claimed tensor → doc → da
→ any group order. -/
theorem c9_counterexample :
    (ColumnStorageView.new (α := Nat) 0).iterKeys exStore = ["id", "tag", "e", "d", "t"] ∧
    (ColumnStorageView.new (α := Nat) 0).iterKeys exStore
      ≠ groupKeys exStore.tensor_columns ++ groupKeys exStore.doc_columns ++
        groupKeys exStore.da_columns ++ groupKeys exStore.any_columns :=
  ⟨rfl, by decide⟩

/-- Witness for C9 (amended): the example storage with disjoint keys. -/
theorem c9_witness :
    KeysDisjoint exStore ∧
    (ColumnStorageView.new (α := Nat) 0).iterKeys exStore
      = groupKeys exStore.any_columns ++ groupKeys exStore.da_columns ++
        groupKeys exStore.doc_columns ++ groupKeys exStore.tensor_columns :=
  ⟨by decide, c9_amended_chainmap_key_order (ColumnStorageView.new 0) exStore (by decide)⟩

/-- C10: the view's constructor leaves the inherited dict payload empty
and the write operation passes through to the storage without touching
that payload (its result type does not even mention the view), so the
inherited dict equality sees an empty mapping: any two constructed
views are dict-equal to each other and to the empty dict, regardless of
the bound rows' field values. -/
theorem c10_inherited_dict_is_empty {α : Type} (i j : Nat) :
    (ColumnStorageView.new (α := α) i).inheritedDict = [] ∧
    pyDictEq (ColumnStorageView.new (α := α) i).inheritedDict
      (ColumnStorageView.new (α := α) j).inheritedDict ∧
    pyDictEq (ColumnStorageView.new (α := α) i).inheritedDict [] :=
  ⟨rfl, fun _ => rfl, fun _ => rfl⟩
